import Mathlib

/-!
Shallow embedding of the Customer 360 ETL pipeline
(source: src/etl_customer360.py) and proofs about its
validation, deduplication, aggregation and merge logic.

Modelling conventions:
* pandas missing values (NaN / NaT / pd.NA) are `Option.none`;
* machine timestamps produced by the external parser `pd.to_datetime`
  are modelled as already-coerced `Option Int` values (the parser is a
  pandas library call, not repository code; only its null-on-failure
  contract matters to the verified claims);
* numeric coercion results of `pd.to_numeric` are likewise carried as
  `Option Rat` (transactions) and `Option Int` (page-view counts);
* dataframes are lists of row records; `groupby` aggregates are
  expressed per key as filter-and-fold over the row list;
* `sort_values(by=[ts, row_order], ascending=[False, True])` sorts by a
  total Boolean order (timestamp descending, missing timestamps last as
  pandas na_position default, then original row index ascending), and
  `drop_duplicates(keep="first")` is a first-occurrence scan; note that
  pandas treats equal NaN keys as duplicates of each other;
* the title-casing of lead names (`proper_case`) is value-preserving
  plumbing orthogonal to every claim; name fields are carried through
  unchanged.
-/

namespace Etl

/-- Python str.strip on a character list: drop whitespace at both ends. -/
def pyStrip (s : List Char) : List Char :=
  ((s.dropWhile Char.isWhitespace).reverse.dropWhile Char.isWhitespace).reverse

/-- Python str.strip at the String level. -/
def stripStr (s : String) : String := ⟨pyStrip s.data⟩

/-- Python str.lower at the String level (ASCII-adequate). -/
def lowerStr (s : String) : String := ⟨s.data.map Char.toLower⟩

/-- A character of the regex class [0-9a-fA-F]. -/
def isHexChar (c : Char) : Bool :=
  ('0' ≤ c && c ≤ '9') || ('a' ≤ c && c ≤ 'f') || ('A' ≤ c && c ≤ 'F')

/-- Split a character list on the dash character, mirroring the group
structure of the anchored regex in UUID_RE (line 32). -/
def splitDash : List Char → List (List Char)
  | [] => [[]]
  | c :: t =>
    if c = '-' then [] :: splitDash t
    else
      match splitDash t with
      | [] => [[c]]
      | g :: gs => (c :: g) :: gs

/-- The 8-4-4-4-12 hexadecimal shape demanded by UUID_RE (line 32):
five dash-separated groups of hex digits with those exact lengths. -/
def uuidShape (s : List Char) : Bool :=
  ((splitDash s).map List.length = [8, 4, 4, 4, 12] : Bool) &&
    (splitDash s).all (fun g => g.all isHexChar)

/-- is_valid_uuid (lines 36-40): false on a missing value, otherwise the
anchored regex match against the stripped string rendering. -/
def is_valid_uuid : Option String → Bool
  | none => false
  | some s => uuidShape (pyStrip s.data)

/-- clean_email (lines 50-52): strip then lowercase; missing stays missing. -/
def clean_email (v : Option String) : Option String :=
  v.map (fun s => lowerStr (stripStr s))

/-- A CRM lead row after column normalization.  `lead_ts` is the
timestamp of the priority-selected column (lines 97-99) after the
lenient UTC coercion of to_iso_timestamp; `none` is NaT. -/
structure CrmRow where
  user_uuid : Option String
  email : Option String
  first_name : Option String
  last_name : Option String
  lead_ts : Option Int
deriving DecidableEq

/-- Line 94: `df["user_uuid"].where(df["user_uuid"].apply(is_valid_uuid), pd.NA)`
keeps the original cell value when it validates, else missing. -/
def crmValidateUuid (v : Option String) : Option String :=
  if is_valid_uuid v then v else none

/-- One lead row through the cleaning steps of read_crm that precede
deduplication (email cleanup line 74, UUID validation line 94). -/
def crmCleanRow (r : CrmRow) : CrmRow :=
  { r with email := clean_email r.email, user_uuid := crmValidateUuid r.user_uuid }

/-- Attach the `_row_order` index (line 102) to each row, starting at n. -/
def withIdx : Nat → List CrmRow → List (Nat × CrmRow)
  | _, [] => []
  | n, r :: rs => (n, r) :: withIdx (n + 1) rs

/-- The total order realised by the line-103 call
`sort_values(by=["_lead_ts", "_row_order"], ascending=[False, True])`:
timestamp descending, missing timestamps last (pandas default
na_position), ties broken by original row index ascending. -/
def crmLe (a b : Nat × CrmRow) : Bool :=
  match a.2.lead_ts, b.2.lead_ts with
  | some t1, some t2 => if t1 = t2 then a.1 ≤ b.1 else t2 < t1
  | some _, none => true
  | none, some _ => false
  | none, none => a.1 ≤ b.1

/-- crmLe as a relation, for the sorting interface. -/
def crmLeP (a b : Nat × CrmRow) : Prop := crmLe a b = true

instance : DecidableRel crmLeP :=
  fun a b => inferInstanceAs (Decidable (crmLe a b = true))

instance : IsTotal (Nat × CrmRow) crmLeP := by
  constructor
  intro a b
  show crmLe a b = true ∨ crmLe b a = true
  rcases hta : a.2.lead_ts with _ | t1 <;> rcases htb : b.2.lead_ts with _ | t2
  · simp only [crmLe, hta, htb, decide_eq_true_eq]; omega
  · right; simp only [crmLe, hta, htb]
  · left; simp only [crmLe, hta, htb]
  · simp only [crmLe, hta, htb]
    split_ifs <;> simp only [decide_eq_true_eq] <;> omega

instance : IsTrans (Nat × CrmRow) crmLeP := by
  constructor
  intro a b c h1 h2
  show crmLe a c = true
  replace h1 : crmLe a b = true := h1
  replace h2 : crmLe b c = true := h2
  rcases hta : a.2.lead_ts with _ | t1 <;> rcases htb : b.2.lead_ts with _ | t2 <;>
    rcases htc : c.2.lead_ts with _ | t3
  · simp only [crmLe, hta, htb, htc, decide_eq_true_eq] at h1 h2 ⊢; omega
  · simp only [crmLe, htb, htc] at h2; exact absurd h2 Bool.false_ne_true
  · simp only [crmLe, hta, htb] at h1; exact absurd h1 Bool.false_ne_true
  · simp only [crmLe, hta, htb] at h1; exact absurd h1 Bool.false_ne_true
  · simp only [crmLe, hta, htc]
  · simp only [crmLe, htb, htc] at h2; exact absurd h2 Bool.false_ne_true
  · simp only [crmLe, hta, htc]
  · simp only [crmLe, hta, htb, htc] at h1 h2 ⊢
    split_ifs at h1 h2 ⊢ <;> simp only [decide_eq_true_eq] at h1 h2 ⊢ <;> omega

/-- The deduplication key of line 104: the (cleaned) email cell, with
missing treated as a key value equal to every other missing cell -
pandas drop_duplicates hashes NaN keys as duplicates of one another. -/
def emailKey (x : Nat × CrmRow) : Option String := x.2.email

/-- One pass of `drop_duplicates(subset=["email"], keep="first")`
(line 104) over an already-sorted list: keep the first occurrence of
each email key, remembering the keys already seen. -/
def dedupKeep : List (Option String) → List (Nat × CrmRow) → List (Nat × CrmRow)
  | _, [] => []
  | seen, x :: rest =>
    if emailKey x ∈ seen then dedupKeep seen rest
    else x :: dedupKeep (emailKey x :: seen) rest

/-- Lines 102-104 of read_crm: attach row order, sort by
(timestamp descending, row order ascending), keep the first row per
email key.  The retained rows keep their original index attached. -/
def crmDedup (rows : List CrmRow) : List (Nat × CrmRow) :=
  dedupKeep [] (List.insertionSort crmLeP (withIdx 0 rows))

/-- read_crm (lines 62-107) restricted to its claim-relevant stages:
clean every row, then deduplicate by email. -/
def read_crm (rows : List CrmRow) : List (Nat × CrmRow) :=
  crmDedup (rows.map crmCleanRow)

/-- A transaction row after the column coercions of lines 164-168:
`amount` carries the pd.to_numeric result (none on coercion failure),
`status` the raw cell, `transaction_id` and `user_uuid` raw cells. -/
structure TxRow where
  transaction_id : Option String
  user_uuid : Option String
  amount : Option Rat
  status : Option String
deriving DecidableEq

/-- Line 167: `df["status"].str.lower().str.strip()`; missing stays missing. -/
def txStatusNorm (r : TxRow) : Option String :=
  r.status.map (fun s => stripStr (lowerStr s))

/-- Line 171: `bad_uuid = ~df["user_uuid"].apply(is_valid_uuid)`. -/
def txBadUuid (r : TxRow) : Bool := !(is_valid_uuid r.user_uuid)

/-- Line 172: `non_positive = ~(df["amount"] > 0)`; a missing amount
compares False against 0, so it counts as non-positive. -/
def txNonPositive (r : TxRow) : Bool :=
  match r.amount with
  | none => true
  | some a => decide (a ≤ 0)

/-- Line 173: `bad_status = df["status"] != "completed"` on the
normalized status. -/
def txBadStatus (r : TxRow) : Bool :=
  decide (txStatusNorm r ≠ some "completed")

/-- The transaction_id used in rejection lines, lines 175-180:
`fillna("<missing>")`. -/
def tidOf (r : TxRow) : String := r.transaction_id.getD "<missing>"

/-- The rejection log lines built by lines 170-180: one loop per check,
run to completion over the whole frame before the loop of the next check. -/
def txReasons (rows : List TxRow) : List String :=
  (rows.filter txBadUuid).map (fun r => tidOf r ++ "\tINVALID_UUID") ++
    (rows.filter txNonPositive).map (fun r => tidOf r ++ "\tNON_POSITIVE_AMOUNT") ++
    (rows.filter txBadStatus).map (fun r => tidOf r ++ "\tINVALID_STATUS")

/-- Line 183: a row is kept for aggregation iff no check flagged it. -/
def txAccepted (r : TxRow) : Bool :=
  !(txBadUuid r || txNonPositive r || txBadStatus r)

/-- Line 183: `df_valid = df[~(bad_uuid | non_positive | bad_status)]`. -/
def txAcceptedRows (rows : List TxRow) : List TxRow :=
  rows.filter txAccepted

/-- Lines 185-188, total_spent: the groupby-sum of `amount` over the
accepted rows whose user_uuid cell equals the group key. -/
def total_spent (rows : List TxRow) (u : String) : Rat :=
  (((txAcceptedRows rows).filter (fun r => decide (r.user_uuid = some u))).map
      (fun r => r.amount.getD 0)).sum

/-- Lines 185-188, transactions_count: pandas `count` of the
transaction_id column, which counts only non-null cells. -/
def transactions_count (rows : List TxRow) (u : String) : Nat :=
  ((((txAcceptedRows rows).filter (fun r => decide (r.user_uuid = some u))).filter
      (fun r => !r.transaction_id.isNone))).length

/-- A web-activity event after the per-line JSON parse and the
coercions of lines 142-143: `page_view_count` carries the numeric
coercion result (none before the fillna(0)), `last_seen_ts` the coerced
timestamp. -/
structure WebEvent where
  user_uuid : Option String
  page_view_count : Option Int
  last_seen_ts : Option Int
deriving DecidableEq

/-- Lines 138-139: keep only events whose user_uuid validates. -/
def webValid (e : WebEvent) : Bool := is_valid_uuid e.user_uuid

/-- The event rows surviving the identity filter of line 139. -/
def webRows (events : List WebEvent) : List WebEvent :=
  events.filter webValid

/-- Lines 142 and 146-150, total_page_views: groupby-sum of the
page-view counts (coercion failure filled with 0) over the events of
one identity. -/
def total_page_views (events : List WebEvent) (u : String) : Int :=
  (((webRows events).filter (fun e => decide (e.user_uuid = some u))).map
      (fun e => e.page_view_count.getD 0)).sum

/-- Maximum of an integer list, none when empty: the pandas `max`
aggregate after missing values are dropped. -/
def listMax : List Int → Option Int
  | [] => none
  | t :: ts =>
    match listMax ts with
    | none => some t
    | some m => some (max t m)

/-- Lines 143 and 146-150, last_seen: the max of the parsed timestamps
of the events of one identity with missing timestamps skipped (pandas max
skipna), none when every timestamp is missing. -/
def last_seen (events : List WebEvent) (u : String) : Option Int :=
  listMax (((webRows events).filter (fun e => decide (e.user_uuid = some u))).filterMap
    (fun e => e.last_seen_ts))

/-- One row of the Activity Summary produced by read_web: the groupby
key with its two aggregates. -/
structure WebAgg where
  user_uuid : String
  total_page_views : Int
  last_seen_ts : Option Int
deriving DecidableEq

/-- One row of the Transaction Summary produced by read_transactions. -/
structure TxAgg where
  user_uuid : String
  total_spent : Rat
  transactions_count : Nat
  last_transaction_ts : Option Int
deriving DecidableEq

/-- One row of the merged Customer 360 output (lines 241-246). -/
structure C360 where
  lead : CrmRow
  total_page_views : Int
  last_seen_ts : Option Int
  total_spent : Rat
  transactions_count : Nat
  last_transaction_ts : Option Int
deriving DecidableEq

/-- The right-hand match of a left merge on user_uuid against the
Activity Summary: summary keys are never missing (groupby keys of a
notna-filtered frame), so a missing lead identity matches nothing. -/
def webMatch (web : List WebAgg) (k : Option String) : Option WebAgg :=
  match k with
  | none => none
  | some u => web.find? (fun w => w.user_uuid == u)

/-- The right-hand match of a left merge on user_uuid against the
Transaction Summary. -/
def txMatch (tx : List TxAgg) (k : Option String) : Option TxAgg :=
  match k with
  | none => none
  | some u => tx.find? (fun t => t.user_uuid == u)

/-- One lead row through the double left merge of line 241 and the
default-fills of lines 244-246: unmatched metrics become integer 0 and
decimal 0.0; unmatched timestamps stay missing. -/
def mergeRow (web : List WebAgg) (tx : List TxAgg) (l : CrmRow) : C360 :=
  let w := webMatch web l.user_uuid
  let t := txMatch tx l.user_uuid
  { lead := l
    total_page_views := (w.map WebAgg.total_page_views).getD 0
    last_seen_ts := w.bind WebAgg.last_seen_ts
    total_spent := (t.map TxAgg.total_spent).getD 0
    transactions_count := (t.map TxAgg.transactions_count).getD 0
    last_transaction_ts := t.bind TxAgg.last_transaction_ts }

/-- Lines 241-246: merge every (deduplicated) lead row with its
optional summary matches and fill defaults. -/
def mergeC360 (leads : List CrmRow) (web : List WebAgg) (tx : List TxAgg) : List C360 :=
  leads.map (mergeRow web tx)

/-- A canonical valid UUID string used by concrete checks. -/
def uuidEx : String := "550e8400-e29b-41d4-a716-446655440000"

/-- The same UUID with a leading space: it validates after stripping
but is not equal to its stripped form. -/
def uuidSpacey : String := " 550e8400-e29b-41d4-a716-446655440000"

/-- Concrete lead row with a missing email (first witness row). -/
def leadNoEmailA : CrmRow :=
  { user_uuid := none, email := none, first_name := some "Ann",
    last_name := none, lead_ts := none }

/-- Concrete lead row with a missing email, distinct from the first. -/
def leadNoEmailB : CrmRow :=
  { user_uuid := none, email := none, first_name := some "Bob",
    last_name := none, lead_ts := none }

/-- Concrete lead row, email a@x.com, timestamp 5. -/
def leadT5 : CrmRow :=
  { user_uuid := none, email := some "a@x.com", first_name := some "New",
    last_name := none, lead_ts := some 5 }

/-- Concrete lead row, email a@x.com, timestamp 3. -/
def leadT3 : CrmRow :=
  { user_uuid := none, email := some "a@x.com", first_name := some "Old",
    last_name := none, lead_ts := some 3 }

/-- Concrete lead row, email a@x.com, missing timestamp. -/
def leadNoTs : CrmRow :=
  { user_uuid := none, email := some "a@x.com", first_name := some "NoTs",
    last_name := none, lead_ts := none }

/-- Second concrete lead row with the same email and missing timestamp. -/
def leadNoTs2 : CrmRow :=
  { user_uuid := none, email := some "a@x.com", first_name := some "NoTs2",
    last_name := none, lead_ts := none }

/-- Concrete accepted transaction row whose transaction_id is missing. -/
def txNoId : TxRow :=
  { transaction_id := none, user_uuid := some uuidEx, amount := some 5,
    status := some "Completed" }

/-- Concrete web event with a negative page-view count. -/
def webNeg : WebEvent :=
  { user_uuid := some uuidEx, page_view_count := some (-5), last_seen_ts := none }

/-- Concrete web event with count 3, timestamp 10. -/
def webEvA : WebEvent :=
  { user_uuid := some uuidEx, page_view_count := some 3, last_seen_ts := some 10 }

/-- Concrete web event with unparseable count (none), timestamp 20. -/
def webEvB : WebEvent :=
  { user_uuid := some uuidEx, page_view_count := none, last_seen_ts := some 20 }

theorem crmLe_refl (a : Nat × CrmRow) : crmLe a a = true := by
  rcases hta : a.2.lead_ts with _ | t1 <;> simp [crmLe, hta]

theorem crmLe_antisymm_idx (a b : Nat × CrmRow)
    (h1 : crmLe a b = true) (h2 : crmLe b a = true) : a.1 = b.1 := by
  rcases hta : a.2.lead_ts with _ | t1 <;> rcases htb : b.2.lead_ts with _ | t2
  · simp only [crmLe, hta, htb, decide_eq_true_eq] at h1 h2; omega
  · simp only [crmLe, hta, htb] at h1; exact absurd h1 Bool.false_ne_true
  · simp only [crmLe, hta, htb] at h2; exact absurd h2 Bool.false_ne_true
  · simp only [crmLe, hta, htb] at h1 h2
    split_ifs at h1 h2 <;> simp only [decide_eq_true_eq] at h1 h2 <;> omega

theorem mem_withIdx (n : Nat) (l : List CrmRow) (i : Nat) (r : CrmRow) :
    (i, r) ∈ withIdx n l ↔
      ∃ k : Nat, ∃ hk : k < l.length, i = n + k ∧ l.get ⟨k, hk⟩ = r := by
  induction l generalizing n with
  | nil => simp [withIdx]
  | cons a t ih =>
    simp only [withIdx, List.mem_cons, ih, Prod.mk.injEq]
    constructor
    · rintro (⟨rfl, rfl⟩ | ⟨k, hk, rfl, hget⟩)
      · exact ⟨0, by simp, by omega, rfl⟩
      · refine ⟨k + 1, by simpa using hk, by omega, ?_⟩
        simpa using hget
    · rintro ⟨k, hk, rfl, hget⟩
      cases k with
      | zero =>
        left
        exact ⟨by omega, by simpa using hget.symm⟩
      | succ k' =>
        right
        refine ⟨k', by simpa using hk, by omega, ?_⟩
        simpa using hget

theorem withIdx_idx_inj (n : Nat) (l : List CrmRow) (p q : Nat × CrmRow)
    (hp : p ∈ withIdx n l) (hq : q ∈ withIdx n l) (h : p.1 = q.1) : p = q := by
  rcases p with ⟨i, r⟩
  rcases q with ⟨j, s⟩
  rw [mem_withIdx] at hp hq
  obtain ⟨k1, hk1, hik, hg1⟩ := hp
  obtain ⟨k2, hk2, hjk, hg2⟩ := hq
  simp only at h
  have hk : k1 = k2 := by omega
  subst hk
  rw [Prod.mk.injEq]
  exact ⟨h, by rw [← hg1, ← hg2]⟩

theorem mem_dedupKeep_iff (l : List (Nat × CrmRow)) (seen : List (Option String))
    (hs : List.Sorted crmLeP l)
    (hanti : ∀ a ∈ l, ∀ b ∈ l, crmLe a b = true → crmLe b a = true → a = b)
    (x : Nat × CrmRow) :
    x ∈ dedupKeep seen l ↔
      x ∈ l ∧ emailKey x ∉ seen ∧ ∀ y ∈ l, emailKey y = emailKey x → crmLe x y = true := by
  induction l generalizing seen with
  | nil => simp [dedupKeep]
  | cons a t ih =>
    obtain ⟨ha, hst⟩ := List.sorted_cons.mp hs
    have hat : ∀ p ∈ t, ∀ q ∈ t, crmLe p q = true → crmLe q p = true → p = q :=
      fun p hp q hq =>
        hanti p (List.mem_cons_of_mem a hp) q (List.mem_cons_of_mem a hq)
    by_cases hseen : emailKey a ∈ seen
    · rw [show dedupKeep seen (a :: t) = dedupKeep seen t from by
        rw [dedupKeep]; simp [hseen]]
      rw [ih seen hst hat]
      constructor
      · rintro ⟨hxt, hxs, hall⟩
        refine ⟨List.mem_cons_of_mem a hxt, hxs, ?_⟩
        intro y hy hkey
        rcases List.mem_cons.mp hy with rfl | hyt
        · exact absurd (hkey ▸ hseen) hxs
        · exact hall y hyt hkey
      · rintro ⟨hx, hxs, hall⟩
        rcases List.mem_cons.mp hx with rfl | hxt
        · exact absurd hseen hxs
        · exact ⟨hxt, hxs, fun y hy hk => hall y (List.mem_cons_of_mem a hy) hk⟩
    · rw [show dedupKeep seen (a :: t) = a :: dedupKeep (emailKey a :: seen) t from by
        rw [dedupKeep]; simp [hseen]]
      rw [List.mem_cons, ih (emailKey a :: seen) hst hat]
      constructor
      · rintro (rfl | ⟨hxt, hxs, hall⟩)
        · refine ⟨List.mem_cons_self _ _, hseen, ?_⟩
          intro y hy hk
          rcases List.mem_cons.mp hy with rfl | hyt
          · exact crmLe_refl _
          · exact ha y hyt
        · have hne : emailKey x ≠ emailKey a := fun h => hxs (by simp [h])
          have hnseen : emailKey x ∉ seen := fun h => hxs (List.mem_cons_of_mem _ h)
          refine ⟨List.mem_cons_of_mem a hxt, hnseen, ?_⟩
          intro y hy hk
          rcases List.mem_cons.mp hy with rfl | hyt
          · exact absurd hk.symm hne
          · exact hall y hyt hk
      · rintro ⟨hx, hxs2, hall⟩
        rcases List.mem_cons.mp hx with rfl | hxt
        · exact Or.inl rfl
        · by_cases hk : emailKey x = emailKey a
          · left
            have h1 : crmLe x a = true := hall a (List.mem_cons_self a t) hk.symm
            have h2 : crmLe a x = true := ha x hxt
            exact hanti x (List.mem_cons_of_mem a hxt) a (List.mem_cons_self a t) h1 h2
          · right
            refine ⟨hxt, ?_, fun y hy hkey => hall y (List.mem_cons_of_mem a hy) hkey⟩
            intro hmem
            rcases List.mem_cons.mp hmem with heq | hin
            · exact hk heq
            · exact hxs2 hin

theorem mem_crmDedup_iff (rows : List CrmRow) (x : Nat × CrmRow) :
    x ∈ crmDedup rows ↔
      x ∈ withIdx 0 rows ∧
        ∀ y ∈ withIdx 0 rows, emailKey y = emailKey x → crmLe x y = true := by
  have hperm := List.perm_insertionSort crmLeP (withIdx 0 rows)
  have hsort := List.sorted_insertionSort crmLeP (withIdx 0 rows)
  have hanti : ∀ a ∈ List.insertionSort crmLeP (withIdx 0 rows),
      ∀ b ∈ List.insertionSort crmLeP (withIdx 0 rows),
      crmLe a b = true → crmLe b a = true → a = b := by
    intro a hma b hmb h1 h2
    exact withIdx_idx_inj 0 rows a b (hperm.mem_iff.mp hma) (hperm.mem_iff.mp hmb)
      (crmLe_antisymm_idx a b h1 h2)
  rw [crmDedup, mem_dedupKeep_iff _ _ hsort hanti]
  simp only [List.not_mem_nil, not_false_iff, true_and]
  constructor
  · rintro ⟨hx, hall⟩
    exact ⟨hperm.mem_iff.mp hx, fun y hy hk => hall y (hperm.mem_iff.mpr hy) hk⟩
  · rintro ⟨hx, hall⟩
    exact ⟨hperm.mem_iff.mpr hx, fun y hy hk => hall y (hperm.mem_iff.mp hy) hk⟩

/-- C5: among lead rows sharing a (normalized) email, the row whose
resolved timestamp is strictly later survives deduplication and the
earlier one is dropped; on a timestamp tie the row with the smaller
original index survives.  Stated as: the losing row is never retained,
and when the email group is exactly the two rows, the winning row is
retained. -/
theorem get_congr (l : List CrmRow) (k i : Nat) (hk : k < l.length)
    (hi : i < l.length) (h : k = i) : l.get ⟨k, hk⟩ = l.get ⟨i, hi⟩ := by
  subst h
  rfl

theorem lead_dedup_latest (rows : List CrmRow) (i j : Nat)
    (hi : i < rows.length) (hj : j < rows.length) (e : String)
    (hei : (rows.get ⟨i, hi⟩).email = some e)
    (hej : (rows.get ⟨j, hj⟩).email = some e)
    (t1 t2 : Int)
    (ht1 : (rows.get ⟨i, hi⟩).lead_ts = some t1)
    (ht2 : (rows.get ⟨j, hj⟩).lead_ts = some t2)
    (hord : t2 < t1 ∨ (t1 = t2 ∧ i < j)) :
    (j, rows.get ⟨j, hj⟩) ∉ crmDedup rows ∧
      ((∀ k : Nat, ∀ hk : k < rows.length,
          (rows.get ⟨k, hk⟩).email = some e → k = i ∨ k = j) →
        (i, rows.get ⟨i, hi⟩) ∈ crmDedup rows) := by
  have memI : (i, rows.get ⟨i, hi⟩) ∈ withIdx 0 rows :=
    (mem_withIdx 0 rows i _).mpr ⟨i, hi, by omega, rfl⟩
  constructor
  · intro hmem
    obtain ⟨-, hall⟩ := (mem_crmDedup_iff rows _).mp hmem
    have hle : crmLe (j, rows.get ⟨j, hj⟩) (i, rows.get ⟨i, hi⟩) = true :=
      hall _ memI (show (rows.get ⟨i, hi⟩).email = (rows.get ⟨j, hj⟩).email by
        rw [hei, hej])
    revert hle
    simp only [crmLe, ht2, ht1]
    split_ifs with h <;> simp only [decide_eq_true_eq] <;> omega
  · intro hgroup
    apply (mem_crmDedup_iff rows _).mpr
    refine ⟨memI, ?_⟩
    intro y hy hkey
    rcases y with ⟨k, s⟩
    obtain ⟨k', hk', hkk, hget⟩ := (mem_withIdx 0 rows k s).mp hy
    have hkeq : k = k' := by omega
    subst hkeq
    have hsem : s.email = some e := by
      have h0 : s.email = (rows.get ⟨i, hi⟩).email := hkey
      rw [h0, hei]
    rcases hgroup k hk' (by rw [hget]; exact hsem) with heq | heq
    · have hs : s = rows.get ⟨i, hi⟩ := by
        rw [← hget]
        exact get_congr rows k i hk' hi heq
      rw [hs]
      simp only [crmLe, ht1]
      split_ifs with h <;> simp only [decide_eq_true_eq] <;> omega
    · have hs : s = rows.get ⟨j, hj⟩ := by
        rw [← hget]
        exact get_congr rows k j hk' hj heq
      rw [hs]
      simp only [crmLe, ht1, ht2]
      split_ifs with h <;> simp only [decide_eq_true_eq] <;> omega

/-- C5 witness: with two leads for a@x.com timestamped 5 and 3, the
timestamp-3 row is dropped and the timestamp-5 row is retained. -/
theorem lead_dedup_latest_witness :
    (1, [leadT5, leadT3].get ⟨1, by decide⟩) ∉ crmDedup [leadT5, leadT3] ∧
      (0, [leadT5, leadT3].get ⟨0, by decide⟩) ∈ crmDedup [leadT5, leadT3] := by
  have h := lead_dedup_latest [leadT5, leadT3] 0 1 (by decide) (by decide) "a@x.com"
    (by decide) (by decide) 5 3 (by decide) (by decide) (Or.inl (by decide))
  refine ⟨h.1, h.2 ?_⟩
  intro k hk hke
  simp only [List.length_cons, List.length_nil] at hk
  omega

/-- C10: among lead rows sharing an email key, a row with a parsed
timestamp always beats a row whose timestamp failed to parse (missing
timestamps sort last); if every row of the group lacks a parsed
timestamp, the row with the smallest original index is retained. -/
theorem lead_dedup_parsed_ts_preferred (rows : List CrmRow) :
    (∀ i j : Nat, ∀ hi : i < rows.length, ∀ hj : j < rows.length, ∀ t : Int,
        (rows.get ⟨i, hi⟩).email = (rows.get ⟨j, hj⟩).email →
        (rows.get ⟨i, hi⟩).lead_ts = some t →
        (rows.get ⟨j, hj⟩).lead_ts = none →
        (j, rows.get ⟨j, hj⟩) ∉ crmDedup rows) ∧
      (∀ i : Nat, ∀ hi : i < rows.length,
        (∀ k : Nat, ∀ hk : k < rows.length,
            (rows.get ⟨k, hk⟩).email = (rows.get ⟨i, hi⟩).email →
            (rows.get ⟨k, hk⟩).lead_ts = none ∧ i ≤ k) →
        (i, rows.get ⟨i, hi⟩) ∈ crmDedup rows) := by
  constructor
  · intro i j hi hj t he hti htj hmem
    obtain ⟨-, hall⟩ := (mem_crmDedup_iff rows _).mp hmem
    have memI : (i, rows.get ⟨i, hi⟩) ∈ withIdx 0 rows :=
      (mem_withIdx 0 rows i _).mpr ⟨i, hi, by omega, rfl⟩
    have hle : crmLe (j, rows.get ⟨j, hj⟩) (i, rows.get ⟨i, hi⟩) = true :=
      hall _ memI (show (rows.get ⟨i, hi⟩).email = (rows.get ⟨j, hj⟩).email from he)
    simp only [crmLe, htj, hti] at hle
    exact absurd hle Bool.false_ne_true
  · intro i hi hgroup
    apply (mem_crmDedup_iff rows _).mpr
    refine ⟨(mem_withIdx 0 rows i _).mpr ⟨i, hi, by omega, rfl⟩, ?_⟩
    intro y hy hkey
    rcases y with ⟨k, s⟩
    obtain ⟨k', hk', hkk, hget⟩ := (mem_withIdx 0 rows k s).mp hy
    have hkeq : k = k' := by omega
    subst hkeq
    have hke : (rows.get ⟨k, hk'⟩).email = (rows.get ⟨i, hi⟩).email := by
      rw [hget]
      exact (hkey : s.email = (rows.get ⟨i, hi⟩).email)
    obtain ⟨hknone, hik⟩ := hgroup k hk' hke
    obtain ⟨hinone, -⟩ := hgroup i hi rfl
    rw [← hget]
    simp only [crmLe, hinone, hknone, decide_eq_true_eq]
    exact hik

/-- C10 witness: a parsed-timestamp lead beats a missing-timestamp lead
for the same email, and with two missing-timestamp leads the one with
the smaller index is retained. -/
theorem lead_dedup_parsed_ts_preferred_witness :
    (0, [leadNoTs, leadT5].get ⟨0, by decide⟩) ∉ crmDedup [leadNoTs, leadT5] ∧
      (0, [leadNoTs, leadNoTs2].get ⟨0, by decide⟩) ∈ crmDedup [leadNoTs, leadNoTs2] := by
  constructor
  · exact (lead_dedup_parsed_ts_preferred [leadNoTs, leadT5]).1 1 0 (by decide) (by decide)
      5 (by decide) (by decide) (by decide)
  · apply (lead_dedup_parsed_ts_preferred [leadNoTs, leadNoTs2]).2 0 (by decide)
    intro k hk hke
    simp only [List.length_cons, List.length_nil] at hk
    rcases k with _ | _ | k
    · exact ⟨rfl, by omega⟩
    · exact ⟨rfl, by omega⟩
    · omega

/-- C6 amended: missing-email lead rows are deduplicated together under
the single missing key - no two retained rows have the same email key,
the missing key included, so at most one missing-email row survives. -/
theorem lead_dedup_unique_email_key (rows : List CrmRow) (x y : Nat × CrmRow)
    (hx : x ∈ crmDedup rows) (hy : y ∈ crmDedup rows)
    (he : emailKey x = emailKey y) : x = y := by
  obtain ⟨hxw, hallx⟩ := (mem_crmDedup_iff rows x).mp hx
  obtain ⟨hyw, hally⟩ := (mem_crmDedup_iff rows y).mp hy
  have h1 : crmLe x y = true := hallx y hyw he.symm
  have h2 : crmLe y x = true := hally x hxw he
  exact withIdx_idx_inj 0 rows x y hxw hyw (crmLe_antisymm_idx x y h1 h2)

/-- C6 counterexample: two lead rows with missing emails collapse to
one - the second row is not retained, refuting the claim that
missing-email rows each retain their own key. -/
theorem lead_missing_email_collapsed :
    leadNoEmailA.email = none ∧ leadNoEmailB.email = none ∧
      (1, leadNoEmailB) ∉ crmDedup [leadNoEmailA, leadNoEmailB] := by decide

/-- C6 amended witness: the uniqueness theorem applied to the retained
row of the two-missing-email input. -/
theorem lead_dedup_unique_email_key_witness :
    ((0 : Nat), leadNoEmailA) = ((0 : Nat), leadNoEmailA) :=
  lead_dedup_unique_email_key [leadNoEmailA, leadNoEmailB] (0, leadNoEmailA)
    (0, leadNoEmailA) (by decide) (by decide) rfl

/-- C1 amended: identity validation accepts exactly the values whose
stripped form matches the 8-4-4-4-12 hex shape, in both directions:
every value whose stripped form matches is accepted and carried
unchanged (the original cell, not its stripped form), every accepted
value was matching and is carried unchanged, every value whose stripped
form does not match becomes missing, a missing input stays missing, and
nothing raises. -/
theorem validate_identity_amended :
    (∀ s : String, uuidShape (pyStrip s.data) = true →
        crmValidateUuid (some s) = some s) ∧
      (∀ s w : String, crmValidateUuid (some s) = some w →
        w = s ∧ uuidShape (pyStrip s.data) = true) ∧
      (∀ s : String, uuidShape (pyStrip s.data) = false →
        crmValidateUuid (some s) = none) ∧
      crmValidateUuid none = none := by
  refine ⟨?_, ?_, ?_, rfl⟩
  · intro s hshape
    have hv : is_valid_uuid (some s) = true := hshape
    simp [crmValidateUuid, hv]
  · intro s w h
    unfold crmValidateUuid at h
    by_cases hv : is_valid_uuid (some s)
    · rw [if_pos hv] at h
      exact ⟨(Option.some.inj h).symm, hv⟩
    · rw [if_neg hv] at h
      exact absurd h (by simp)
  · intro s hshape
    have hv : is_valid_uuid (some s) = false := hshape
    simp [crmValidateUuid, hv]

/-- C1 counterexample: a UUID with a leading space validates (the check
strips before matching) but the carried identity is the original spacey
string, not the trimmed value the claim promises. -/
theorem validate_identity_keeps_raw_value :
    crmValidateUuid (some uuidSpacey) = some uuidSpacey ∧
      stripStr uuidSpacey ≠ uuidSpacey := by decide

/-- C1 amended witness: the characterization applied to a canonical
UUID (accepted and carried unchanged), to that acceptance (accept
implies match), and to a non-matching string (rejected to missing). -/
theorem validate_identity_amended_witness :
    crmValidateUuid (some uuidEx) = some uuidEx ∧
      (uuidEx = uuidEx ∧ uuidShape (pyStrip uuidEx.data) = true) ∧
      crmValidateUuid (some "not-a-uuid") = none :=
  ⟨validate_identity_amended.1 uuidEx (by decide),
    validate_identity_amended.2.1 uuidEx uuidEx (by decide),
    validate_identity_amended.2.2.1 "not-a-uuid" (by decide)⟩

theorem map_filter_eq_filterMap {α β : Type} (p : α → Bool) (f : α → β) (l : List α) :
    (l.filter p).map f = l.filterMap (fun a => if p a then some (f a) else none) := by
  induction l with
  | nil => rfl
  | cons a t ih =>
    cases h : p a <;> simp [List.filter_cons, List.filterMap_cons, h, ih]

theorem length_filter_eq_sum_ones {α : Type} (p : α → Bool) (l : List α) :
    (l.filter p).length = (l.map (fun a => if p a then 1 else 0)).sum := by
  induction l with
  | nil => rfl
  | cons a t ih =>
    cases h : p a <;> simp [List.filter_cons, h, ih]
    omega

theorem sum_map_add_three {α : Type} (f g h : α → Nat) (l : List α) :
    (l.map (fun a => f a + g a + h a)).sum =
      (l.map f).sum + (l.map g).sum + (l.map h).sum := by
  induction l with
  | nil => rfl
  | cons a t ih =>
    simp only [List.map_cons, List.sum_cons, ih]
    omega

/-- C2: a transaction row is accepted into aggregation exactly when its
identity validates as a UUID, its coerced amount exists and is strictly
positive, and its normalized (lowercased, stripped) status is exactly
the string completed. -/
theorem tx_acceptance_iff (r : TxRow) :
    txAccepted r = true ↔
      (is_valid_uuid r.user_uuid = true ∧
        (∃ a : Rat, r.amount = some a ∧ 0 < a) ∧
        txStatusNorm r = some "completed") := by
  unfold txAccepted txBadUuid txNonPositive txBadStatus
  rcases ham : r.amount with _ | a
  · simp [ham]
  · simp [ham, not_le, and_assoc]

/-- C4: the rejection log is exactly the three per-check blocks in
source row order - all INVALID_UUID lines, then all
NON_POSITIVE_AMOUNT lines, then all INVALID_STATUS lines - and its
total length is the sum over rows of the number of failed checks, so a
row failing several checks is logged once per failed check. -/
theorem tx_rejection_order_and_multiplicity (rows : List TxRow) :
    txReasons rows =
        rows.filterMap
            (fun r => if txBadUuid r then some (tidOf r ++ "\tINVALID_UUID") else none) ++
          rows.filterMap
            (fun r => if txNonPositive r then some (tidOf r ++ "\tNON_POSITIVE_AMOUNT") else none) ++
          rows.filterMap
            (fun r => if txBadStatus r then some (tidOf r ++ "\tINVALID_STATUS") else none) ∧
      (txReasons rows).length =
        (rows.map (fun r =>
            (if txBadUuid r then 1 else 0) + (if txNonPositive r then 1 else 0) +
              (if txBadStatus r then 1 else 0))).sum := by
  constructor
  · unfold txReasons
    rw [map_filter_eq_filterMap, map_filter_eq_filterMap, map_filter_eq_filterMap]
  · unfold txReasons
    rw [List.length_append, List.length_append, List.length_map, List.length_map,
      List.length_map, length_filter_eq_sum_ones, length_filter_eq_sum_ones,
      length_filter_eq_sum_ones, sum_map_add_three]

/-- C7 amended: per identity, total_spent is the exact sum of the
coerced amounts of the accepted rows of that identity (rejected rows
contribute nothing), while transactions_count counts only the accepted
rows of that identity whose transaction_id is present - pandas count
ignores null cells. -/
theorem tx_totals_characterization (rows : List TxRow) (u : String) :
    total_spent rows u =
        (rows.map (fun r =>
            if txAccepted r = true ∧ r.user_uuid = some u then r.amount.getD 0 else 0)).sum ∧
      transactions_count rows u =
        rows.countP (fun r =>
          txAccepted r && decide (r.user_uuid = some u) && !r.transaction_id.isNone) := by
  constructor
  · unfold total_spent txAcceptedRows
    rw [List.filter_filter]
    induction rows with
    | nil => rfl
    | cons r t ih =>
      rw [List.filter_cons, List.map_cons, List.sum_cons]
      by_cases hc : txAccepted r = true ∧ r.user_uuid = some u
      · rw [if_pos (show (decide (r.user_uuid = some u) && txAccepted r) = true by
            simp [hc.1, hc.2]),
          List.map_cons, List.sum_cons, ih, if_pos hc]
      · rw [if_neg (show ¬ (decide (r.user_uuid = some u) && txAccepted r) = true by
            simp only [Bool.and_eq_true, decide_eq_true_eq]
            intro h0
            exact hc ⟨h0.2, h0.1⟩),
          ih, if_neg hc, zero_add]
  · unfold transactions_count txAcceptedRows
    rw [List.filter_filter, List.filter_filter, List.countP_eq_length_filter]
    congr 1
    apply List.filter_congr
    intro a _
    cases h1 : txAccepted a <;> cases h2 : decide (a.user_uuid = some u) <;>
      cases h3 : a.transaction_id.isNone <;> simp [h1, h2, h3]

/-- C7 counterexample: an accepted transaction row with a missing
transaction_id is summed into total_spent but skipped by
transactions_count, so the count is not the number of accepted rows. -/
theorem tx_count_skips_null_id :
    txAccepted txNoId = true ∧
      (txAcceptedRows [txNoId]).length = 1 ∧
      total_spent [txNoId] uuidEx = 5 ∧
      transactions_count [txNoId] uuidEx = 0 := by
  have h1 : txAccepted txNoId = true := by decide
  have h2 : decide (txNoId.user_uuid = some uuidEx) = true := by decide
  refine ⟨h1, ?_, ?_, ?_⟩
  · simp [txAcceptedRows, List.filter_cons, h1]
  · simp [total_spent, txAcceptedRows, List.filter_cons, h1, h2]
    show txNoId.amount.getD 0 = 5
    rfl
  · simp [transactions_count, txAcceptedRows, List.filter_cons, h1, h2]
    rfl

theorem listMax_eq_none_iff (l : List Int) : listMax l = none ↔ l = [] := by
  cases l with
  | nil => simp [listMax]
  | cons t ts =>
    simp only [listMax]
    cases listMax ts <;> simp

theorem listMax_eq_some_iff (l : List Int) :
    ∀ m : Int, listMax l = some m ↔ m ∈ l ∧ ∀ x ∈ l, x ≤ m := by
  induction l with
  | nil => simp [listMax]
  | cons t ts ih =>
    intro m
    cases hm : listMax ts with
    | none =>
      have hts : ts = [] := (listMax_eq_none_iff ts).mp hm
      subst hts
      simp only [listMax]
      constructor
      · intro h
        cases h
        simp
      · rintro ⟨hmem, -⟩
        simp only [List.mem_cons, List.not_mem_nil, or_false] at hmem
        rw [hmem]
    | some k =>
      obtain ⟨hkmem, hkub⟩ := (ih k).mp hm
      simp only [listMax, hm]
      constructor
      · intro h
        have hmk : m = max t k := (Option.some.inj h).symm
        subst hmk
        constructor
        · rcases le_total t k with hle | hle
          · rw [max_eq_right hle]
            exact List.mem_cons_of_mem _ hkmem
          · rw [max_eq_left hle]
            exact List.mem_cons_self t ts
        · intro x hx
          rcases List.mem_cons.mp hx with rfl | hxts
          · exact le_max_left _ _
          · exact le_trans (hkub x hxts) (le_max_right t k)
      · rintro ⟨hmem, hub⟩
        have h1 : t ≤ m := hub t (List.mem_cons_self t ts)
        have h2 : k ≤ m := hub k (List.mem_cons_of_mem t hkmem)
        have h3 : m ≤ max t k := by
          rcases List.mem_cons.mp hmem with rfl | hmts
          · exact le_max_left _ _
          · exact le_trans (hkub m hmts) (le_max_right t k)
        rw [le_antisymm (max_le h1 h2) h3]

theorem listMax_perm (l l2 : List Int) (h : l.Perm l2) : listMax l = listMax l2 := by
  cases hl : listMax l with
  | none =>
    have h0 : l = [] := (listMax_eq_none_iff l).mp hl
    subst h0
    rw [(listMax_eq_none_iff l2).mpr (h.symm.eq_nil)]
  | some m =>
    obtain ⟨hmem, hub⟩ := ((listMax_eq_some_iff l) m).mp hl
    exact ((listMax_eq_some_iff l2 m).mpr
      ⟨h.mem_iff.mp hmem, fun x hx => hub x (h.mem_iff.mpr hx)⟩).symm

/-- C8: activity aggregation is order-insensitive - permuting the
event lines changes neither the total_page_views of an identity (a sum) nor
its last_seen (a max over the present timestamps). -/
theorem activity_aggregation_perm_invariant (l l2 : List WebEvent)
    (hp : l.Perm l2) (u : String) :
    total_page_views l u = total_page_views l2 u ∧ last_seen l u = last_seen l2 u := by
  have hpf : ((webRows l).filter (fun e => decide (e.user_uuid = some u))).Perm
      ((webRows l2).filter (fun e => decide (e.user_uuid = some u))) :=
    (hp.filter webValid).filter _
  constructor
  · unfold total_page_views
    exact List.Perm.sum_eq (hpf.map _)
  · unfold last_seen
    exact listMax_perm _ _ (hpf.filterMap _)

/-- C8 witness: the permutation-invariance theorem applied to a
two-event log and its swap. -/
theorem activity_aggregation_perm_invariant_witness :
    total_page_views [webEvA, webEvB] uuidEx = total_page_views [webEvB, webEvA] uuidEx ∧
      last_seen [webEvA, webEvB] uuidEx = last_seen [webEvB, webEvA] uuidEx :=
  activity_aggregation_perm_invariant [webEvA, webEvB] [webEvB, webEvA] (by decide) uuidEx

/-- C9 counterexample: a single event with a coerced page-view count of
-5 yields a summary row with negative total_page_views - the code never
clamps negative counts. -/
theorem activity_negative_views_example :
    webValid webNeg = true ∧ total_page_views [webNeg] uuidEx < 0 := by decide

/-- C9 amended: whenever the coerced page-view count of every event is
non-negative (in particular when counts are parse failures filled with
0), the total_page_views of each identity is non-negative. -/
theorem activity_views_nonneg (events : List WebEvent) (u : String)
    (h : ∀ e ∈ events, 0 ≤ e.page_view_count.getD 0) :
    0 ≤ total_page_views events u := by
  unfold total_page_views
  apply List.sum_nonneg
  intro x hx
  simp only [webRows, List.mem_map, List.mem_filter] at hx
  obtain ⟨e, ⟨⟨hev, -⟩, -⟩, rfl⟩ := hx
  exact h e hev

/-- C9 amended witness: the non-negativity theorem applied to a
one-event log with count 3. -/
theorem activity_views_nonneg_witness : 0 ≤ total_page_views [webEvA] uuidEx :=
  activity_views_nonneg [webEvA] uuidEx (by decide)

/-- C3: the merge preserves the deduplicated lead table exactly - the
lead parts of the output are the lead rows themselves, in order, none
dropped or duplicated (null identities included) - and a lead matching
no Activity or Transaction Summary row gets integer 0 page views and
transaction count, 0.0 total spent, and missing timestamps. -/
theorem merge_preserves_leads_and_defaults (rows : List CrmRow)
    (web : List WebAgg) (tx : List TxAgg) :
    (mergeC360 ((crmDedup rows).map Prod.snd) web tx).map C360.lead =
        (crmDedup rows).map Prod.snd ∧
      (∀ c ∈ mergeC360 ((crmDedup rows).map Prod.snd) web tx,
        (∀ w ∈ web, some w.user_uuid ≠ c.lead.user_uuid) →
          c.total_page_views = 0 ∧ c.last_seen_ts = none) ∧
      (∀ c ∈ mergeC360 ((crmDedup rows).map Prod.snd) web tx,
        (∀ t ∈ tx, some t.user_uuid ≠ c.lead.user_uuid) →
          c.total_spent = 0 ∧ c.transactions_count = 0 ∧ c.last_transaction_ts = none) := by
  refine ⟨?_, ?_, ?_⟩
  · unfold mergeC360
    rw [List.map_map]
    have hid : ∀ l : CrmRow, (C360.lead ∘ mergeRow web tx) l = l := fun l => rfl
    calc ((crmDedup rows).map Prod.snd).map (C360.lead ∘ mergeRow web tx)
        = ((crmDedup rows).map Prod.snd).map id := List.map_congr_left (fun l _ => hid l)
      _ = (crmDedup rows).map Prod.snd := List.map_id _
  · intro c hc hnone
    obtain ⟨l, -, rfl⟩ := List.mem_map.mp hc
    have hw : webMatch web l.user_uuid = none := by
      cases hu : l.user_uuid with
      | none => rfl
      | some u =>
        unfold webMatch
        apply List.find?_eq_none.mpr
        intro w hwmem hbeq
        have hwu : w.user_uuid = u := by simpa using hbeq
        exact hnone w hwmem (show some w.user_uuid = l.user_uuid by rw [hu, hwu])
    constructor
    · show ((webMatch web l.user_uuid).map WebAgg.total_page_views).getD 0 = 0
      rw [hw]
      rfl
    · show (webMatch web l.user_uuid).bind WebAgg.last_seen_ts = none
      rw [hw]
      rfl
  · intro c hc hnone
    obtain ⟨l, -, rfl⟩ := List.mem_map.mp hc
    have ht : txMatch tx l.user_uuid = none := by
      cases hu : l.user_uuid with
      | none => rfl
      | some u =>
        unfold txMatch
        apply List.find?_eq_none.mpr
        intro t htmem hbeq
        have htu : t.user_uuid = u := by simpa using hbeq
        exact hnone t htmem (show some t.user_uuid = l.user_uuid by rw [hu, htu])
    refine ⟨?_, ?_, ?_⟩
    · show ((txMatch tx l.user_uuid).map TxAgg.total_spent).getD 0 = 0
      rw [ht]
      rfl
    · show ((txMatch tx l.user_uuid).map TxAgg.transactions_count).getD 0 = 0
      rw [ht]
      rfl
    · show (txMatch tx l.user_uuid).bind TxAgg.last_transaction_ts = none
      rw [ht]
      rfl

/-- C3 witness: the merge theorem applied to a one-lead table (a lead
with no identity) and empty summaries: the lead survives and every
metric field is default-filled. -/
theorem merge_defaults_witness :
    (mergeC360 ((crmDedup [leadNoTs]).map Prod.snd) [] []).map C360.lead =
        (crmDedup [leadNoTs]).map Prod.snd ∧
      (mergeRow [] [] leadNoTs).total_page_views = 0 ∧
      (mergeRow [] [] leadNoTs).last_seen_ts = none ∧
      (mergeRow [] [] leadNoTs).total_spent = 0 ∧
      (mergeRow [] [] leadNoTs).transactions_count = 0 ∧
      (mergeRow [] [] leadNoTs).last_transaction_ts = none := by
  have h := merge_preserves_leads_and_defaults [leadNoTs] [] []
  have hc : mergeRow ([] : List WebAgg) ([] : List TxAgg) leadNoTs ∈
      mergeC360 ((crmDedup [leadNoTs]).map Prod.snd) [] [] := by decide
  have h2 := h.2.1 _ hc (by intro w hw; exact absurd hw (List.not_mem_nil w))
  have h3 := h.2.2 _ hc (by intro t htm; exact absurd htm (List.not_mem_nil t))
  exact ⟨h.1, h2.1, h2.2, h3.1, h3.2.1, h3.2.2⟩

end Etl
